import Mathlib

/-!
Verification of the KDE Wayland shell extension modules (appmenu, blur,
server decoration) of this repository, as a shallow embedding in Lean.

The three modules follow one pattern: a client-bindable manager global whose
`Create` request produces a per-surface protocol object; requests against
that object are routed to host callbacks declared on a handler trait with
default no-op implementations.  The runtime (wayland-server) is external to
the repository: objects, their associated data, and request decoding are
modelled here by explicit tables and request enums, following the contracts
the spec states for the runtime.

Surfaces, clients, regions and protocol object ids are opaque handles in the
source; they are modelled as natural numbers.
-/

abbrev WlSurface := Nat
abbrev Client := Nat
abbrev WlRegion := Nat
abbrev ObjectId := Nat
abbrev GlobalId := Nat

/-- KDE server decoration mode enum (`Mode` of org_kde_kwin_server_decoration):
None, Client, Server. -/
inductive DecorationMode
  | noDecoration
  | clientSide
  | serverSide
deriving DecidableEq, Repr

/-! ## Requests

One inductive per protocol interface, transcribed from the request enums the
dispatch impls match on.  The request enums of wayland-protocols are
non-exhaustive, which is why every source `match` carries a
`_ => unreachable!()` arm; the constructor `Undefined` models a request
variant outside the interface's defined request set. -/

/-- Requests of org_kde_kwin_appmenu (appmenu.rs, `AppmenuRequest`). -/
inductive AppmenuRequest
  | SetAddress (service_name : String) (object_path : String)
  | Release
  | Undefined
deriving DecidableEq, Repr

/-- Requests of org_kde_kwin_appmenu_manager (appmenu.rs, `ManagerRequest`). -/
inductive AppmenuManagerRequest
  | Create (id : ObjectId) (surface : WlSurface)
  | Undefined
deriving DecidableEq, Repr

/-- Requests of org_kde_kwin_blur (handlers.rs, `Request`). -/
inductive BlurRequest
  | Commit
  | SetRegion (region : Option WlRegion)
  | Release
  | Undefined
deriving DecidableEq, Repr

/-- Requests of org_kde_kwin_blur_manager (handlers.rs, `ManagerRequest`). -/
inductive BlurManagerRequest
  | Create (id : ObjectId) (surface : WlSurface)
  | Unset (surface : WlSurface)
  | Undefined
deriving DecidableEq, Repr

/-- Requests of org_kde_kwin_server_decoration (handlers.rs,
`DecorationRequest`). -/
inductive DecorationRequest
  | RequestMode (mode : DecorationMode)
  | Release
  | Undefined
deriving DecidableEq, Repr

/-- Requests of org_kde_kwin_server_decoration_manager (handlers.rs,
`DecorationManagerRequest`). -/
inductive DecorationManagerRequest
  | Create (id : ObjectId) (surface : WlSurface)
  | Undefined
deriving DecidableEq, Repr

/-! ## Host callback events

Each dispatch arm of the source invokes exactly one method of the handler
trait; an event records one such invocation, with the arguments the source
passes. -/

/-- Invocations of `KdeAppMenuHandler` methods (appmenu.rs). -/
inductive AppmenuEvent
  | new_appmenu (surface : WlSurface) (appmenu : ObjectId)
  | set_address (surface : WlSurface) (appmenu : ObjectId)
      (service_name : String) (object_path : String)
  | release (appmenu : ObjectId) (surface : WlSurface)
deriving DecidableEq, Repr

/-- Invocations of `KdeBlurHandler` methods (blur.rs). -/
inductive BlurEvent
  | new_blur (surface : WlSurface) (blur : ObjectId)
  | commit (surface : WlSurface) (blur : ObjectId)
  | set_region (surface : WlSurface) (blur : ObjectId) (region : Option WlRegion)
  | release (blur : ObjectId) (surface : WlSurface)
  | unset (surface : WlSurface)
deriving DecidableEq, Repr

/-- Invocations of `KdeDecorationHandler` methods. -/
inductive DecorationEvent
  | new_decoration (surface : WlSurface) (decoration : ObjectId)
  | request_mode (surface : WlSurface) (decoration : ObjectId) (mode : DecorationMode)
  | release (decoration : ObjectId) (surface : WlSurface)
deriving DecidableEq, Repr

/-! ## Runtime object table

The runtime owns each protocol object together with its associated data;
for the per-surface objects of these modules the data is the `WlSurface`
the object was created against, set by `data_init.init(id, surface)` and
handed back to every per-object `request` call.  Modelled as an association
list from object id to surface: `init` prepends an entry, dispatch looks the
entry up, nothing else writes (resource data is write-once in the runtime's
contract). -/

abbrev ObjectTable := List (ObjectId × WlSurface)

/-- Surface associated with object `id` in the runtime's table. -/
def assocSurface : ObjectTable → ObjectId → Option WlSurface
  | [], _ => none
  | (i, s) :: rest, id => if i = id then some s else assocSurface rest id

/-! ## Per-object dispatch

Transcriptions of the `Dispatch<_, WlSurface, D>::request` impls: the match
on the decoded request, each arm calling one handler method.  The result is
`none` on the `unreachable!()` arm, and otherwise the list of handler
invocations the call performs (always exactly one). -/

/-- appmenu.rs, `Dispatch<OrgKdeKwinAppmenu, WlSurface, D>::request`. -/
def appmenuRequestDispatch (appmenu : ObjectId) (surface : WlSurface) :
    AppmenuRequest → Option (List AppmenuEvent)
  | .SetAddress service_name object_path =>
      some [.set_address surface appmenu service_name object_path]
  | .Release => some [.release appmenu surface]
  | .Undefined => none

/-- handlers.rs, `Dispatch<OrgKdeKwinBlur, WlSurface, D>::request`. -/
def blurRequestDispatch (blur : ObjectId) (surface : WlSurface) :
    BlurRequest → Option (List BlurEvent)
  | .Commit => some [.commit surface blur]
  | .SetRegion region => some [.set_region surface blur region]
  | .Release => some [.release blur surface]
  | .Undefined => none

/-- handlers.rs, `Dispatch<OrgKdeKwinServerDecoration, WlSurface, D>::request`. -/
def decorationRequestDispatch (decoration : ObjectId) (surface : WlSurface) :
    DecorationRequest → Option (List DecorationEvent)
  | .RequestMode mode => some [.request_mode surface decoration mode]
  | .Release => some [.release decoration surface]
  | .Undefined => none

/-! ## Manager dispatch

Transcriptions of the `Dispatch<_, (), D>::request` impls on the manager
objects.  `Create { id, surface }` finalizes the new object with the surface
as its data (`data_init.init(id, surface)`) and then calls the host's
creation callback with that same surface; blur's `Unset { surface }` calls
the host's `unset` without touching the object table. -/

/-- appmenu.rs, `Dispatch<OrgKdeKwinAppmenuManager, (), D>::request`. -/
def appmenuManagerDispatch (t : ObjectTable) :
    AppmenuManagerRequest → Option (ObjectTable × List AppmenuEvent)
  | .Create id surface => some ((id, surface) :: t, [.new_appmenu surface id])
  | .Undefined => none

/-- handlers.rs, `Dispatch<OrgKdeKwinBlurManager, (), D>::request`. -/
def blurManagerDispatch (t : ObjectTable) :
    BlurManagerRequest → Option (ObjectTable × List BlurEvent)
  | .Create id surface => some ((id, surface) :: t, [.new_blur surface id])
  | .Unset surface => some (t, [.unset surface])
  | .Undefined => none

/-- handlers.rs, `Dispatch<OrgKdeKwinServerDecorationManager, (), D>::request`. -/
def decorationManagerDispatch (t : ObjectTable) :
    DecorationManagerRequest → Option (ObjectTable × List DecorationEvent)
  | .Create id surface => some ((id, surface) :: t, [.new_decoration surface id])
  | .Undefined => none

/-! ## System steps and runs

A system request is either a manager request or a request against a live
per-surface object.  A step delivers one decoded request to the matching
dispatch impl; for a per-object request the runtime supplies the object's
associated data (its surface) from the table.  A run delivers a FIFO
sequence of requests, accumulating the handler invocations in order. -/

inductive AppmenuSysRequest
  | manager (r : AppmenuManagerRequest)
  | object (id : ObjectId) (r : AppmenuRequest)
deriving DecidableEq, Repr

inductive BlurSysRequest
  | manager (r : BlurManagerRequest)
  | object (id : ObjectId) (r : BlurRequest)
deriving DecidableEq, Repr

inductive DecorationSysRequest
  | manager (r : DecorationManagerRequest)
  | object (id : ObjectId) (r : DecorationRequest)
deriving DecidableEq, Repr

def appmenuStep (t : ObjectTable) :
    AppmenuSysRequest → Option (ObjectTable × List AppmenuEvent)
  | .manager r => appmenuManagerDispatch t r
  | .object id r => do
      let surface ← assocSurface t id
      let evs ← appmenuRequestDispatch id surface r
      pure (t, evs)

def blurStep (t : ObjectTable) :
    BlurSysRequest → Option (ObjectTable × List BlurEvent)
  | .manager r => blurManagerDispatch t r
  | .object id r => do
      let surface ← assocSurface t id
      let evs ← blurRequestDispatch id surface r
      pure (t, evs)

def decorationStep (t : ObjectTable) :
    DecorationSysRequest → Option (ObjectTable × List DecorationEvent)
  | .manager r => decorationManagerDispatch t r
  | .object id r => do
      let surface ← assocSurface t id
      let evs ← decorationRequestDispatch id surface r
      pure (t, evs)

def appmenuRun (t : ObjectTable) :
    List AppmenuSysRequest → Option (ObjectTable × List AppmenuEvent)
  | [] => some (t, [])
  | r :: rs => do
      let (t1, e1) ← appmenuStep t r
      let (t2, e2) ← appmenuRun t1 rs
      pure (t2, e1 ++ e2)

def blurRun (t : ObjectTable) :
    List BlurSysRequest → Option (ObjectTable × List BlurEvent)
  | [] => some (t, [])
  | r :: rs => do
      let (t1, e1) ← blurStep t r
      let (t2, e2) ← blurRun t1 rs
      pure (t2, e1 ++ e2)

def decorationRun (t : ObjectTable) :
    List DecorationSysRequest → Option (ObjectTable × List DecorationEvent)
  | [] => some (t, [])
  | r :: rs => do
      let (t1, e1) ← decorationStep t r
      let (t2, e2) ← decorationRun t1 rs
      pure (t2, e1 ++ e2)

/-! ## Manager global data and visibility

Each manager global carries per-global metadata holding the client
visibility predicate; `can_view` applies it to the binding client. -/

/-- appmenu.rs, `KdeAppMenuManagerGlobalData`. -/
structure KdeAppMenuManagerGlobalData where
  filter : Client → Bool

/-- blur.rs, `KdeBlurManagerGlobalData`. -/
structure KdeBlurManagerGlobalData where
  filter : Client → Bool

/-- Modelled from the spec: `KdeDecorationManagerGlobalData` lives in
decoration.rs, which is not among the source files; per §3 it is the
per-global metadata containing the client-visibility predicate, exactly as
in the two sibling modules. -/
structure KdeDecorationManagerGlobalData where
  filter : Client → Bool

/-- appmenu.rs, `GlobalDispatch<OrgKdeKwinAppmenuManager, ...>::can_view`. -/
def KdeAppMenuState.can_view (client : Client)
    (global_data : KdeAppMenuManagerGlobalData) : Bool :=
  global_data.filter client

/-- handlers.rs, `GlobalDispatch<OrgKdeKwinBlurManager, ...>::can_view`. -/
def KdeBlurState.can_view (client : Client)
    (global_data : KdeBlurManagerGlobalData) : Bool :=
  global_data.filter client

/-- handlers.rs, `GlobalDispatch<OrgKdeKwinServerDecorationManager, ...>::can_view`. -/
def KdeDecorationState.can_view (client : Client)
    (global_data : KdeDecorationManagerGlobalData) : Bool :=
  global_data.filter client

/-! ## Display handle and global registration

Modelled from the spec: `DisplayHandle.create_global` belongs to the
external runtime; per §4.1 it registers a new global at a fixed protocol
version, storing the supplied metadata, and returns the global's opaque
identity.  A display handle is modelled as a fresh-id counter plus the list
of registered globals (id, version, metadata), one display per metadata
type. -/

structure DisplayHandle (GD : Type) where
  next_global : GlobalId
  globals : List (GlobalId × Nat × GD)

def DisplayHandle.create_global (d : DisplayHandle GD) (version : Nat) (data : GD) :
    GlobalId × DisplayHandle GD :=
  (d.next_global, ⟨d.next_global + 1, (d.next_global, version, data) :: d.globals⟩)

/-- Version of the registered global `gid`, as the runtime advertises it. -/
def DisplayHandle.globalVersion (d : DisplayHandle GD) (gid : GlobalId) : Option Nat :=
  (d.globals.find? fun e => e.1 = gid).map fun e => e.2.1

/-- Metadata of the registered global `gid`. -/
def DisplayHandle.globalData (d : DisplayHandle GD) (gid : GlobalId) : Option GD :=
  (d.globals.find? fun e => e.1 = gid).map fun e => e.2.2

/-! ## Extension states and constructors -/

/-- appmenu.rs, `KdeAppMenuState`. -/
structure KdeAppMenuState where
  kde_appmenu_manager : GlobalId
deriving DecidableEq, Repr

/-- blur.rs, `KdeBlurState`. -/
structure KdeBlurState where
  kde_blur_manager : GlobalId
deriving DecidableEq, Repr

/-- Modelled from the spec: `KdeDecorationState` lives in decoration.rs,
which is not among the source files; per §3 and §4.1 it holds the manager
global's identity plus the extension-wide default decoration mode, set at
construction and read at bind time (`state.kde_decoration_state().default_mode`
in handlers.rs). -/
structure KdeDecorationState where
  kde_decoration_manager : GlobalId
  default_mode : DecorationMode
deriving DecidableEq, Repr

/-- appmenu.rs, `KdeAppMenuState::new_with_filter`: registers the appmenu
manager global at version 2, with the filter stored in the global data. -/
def KdeAppMenuState.new_with_filter (display : DisplayHandle KdeAppMenuManagerGlobalData)
    (filter : Client → Bool) :
    KdeAppMenuState × DisplayHandle KdeAppMenuManagerGlobalData :=
  let data : KdeAppMenuManagerGlobalData := { filter := filter }
  let created := display.create_global 2 data
  ({ kde_appmenu_manager := created.1 }, created.2)

/-- appmenu.rs, `KdeAppMenuState::new`. -/
def KdeAppMenuState.new (display : DisplayHandle KdeAppMenuManagerGlobalData) :
    KdeAppMenuState × DisplayHandle KdeAppMenuManagerGlobalData :=
  KdeAppMenuState.new_with_filter display fun _ => true

/-- appmenu.rs, `KdeAppMenuState::global`. -/
def KdeAppMenuState.global (s : KdeAppMenuState) : GlobalId :=
  s.kde_appmenu_manager

/-- blur.rs, `KdeBlurState::new_with_filter`: registers the blur manager
global at version 1, with the filter stored in the global data. -/
def KdeBlurState.new_with_filter (display : DisplayHandle KdeBlurManagerGlobalData)
    (filter : Client → Bool) :
    KdeBlurState × DisplayHandle KdeBlurManagerGlobalData :=
  let data : KdeBlurManagerGlobalData := { filter := filter }
  let created := display.create_global 1 data
  ({ kde_blur_manager := created.1 }, created.2)

/-- blur.rs, `KdeBlurState::new`. -/
def KdeBlurState.new (display : DisplayHandle KdeBlurManagerGlobalData) :
    KdeBlurState × DisplayHandle KdeBlurManagerGlobalData :=
  KdeBlurState.new_with_filter display fun _ => true

/-- blur.rs, `KdeBlurState::global`. -/
def KdeBlurState.global (s : KdeBlurState) : GlobalId :=
  s.kde_blur_manager

/-! ## Decoration manager bind

handlers.rs, `GlobalDispatch<OrgKdeKwinServerDecorationManager, ...>::bind`:
the bind callback initializes the new manager object, reads the host's
default decoration mode, and emits one `default_mode` event carrying it —
all before bind returns.  The call is modelled as the ordered list of
actions it performs. -/

inductive DecorationBindAction
  | init_manager
  | emit_default_mode (mode : DecorationMode)
deriving DecidableEq, Repr

def decorationManagerBind (state : KdeDecorationState) : List DecorationBindAction :=
  [.init_manager, .emit_default_mode state.default_mode]

/-! ## Handler traits

appmenu.rs `KdeAppMenuHandler` and blur.rs `KdeBlurHandler`: one mandatory
state accessor, the event methods defaulted to no-ops at the trait level.
A host implementing the trait is a record over its state type `D`; the
default field values below are the trait's provided method bodies. -/

structure KdeAppMenuHandler (D : Type) where
  kde_appmenu_state : D → KdeAppMenuState
  new_appmenu : D → WlSurface → ObjectId → D := fun d _ _ => d
  set_address : D → WlSurface → ObjectId → String → String → D := fun d _ _ _ _ => d
  release : D → ObjectId → WlSurface → D := fun d _ _ => d

structure KdeBlurHandler (D : Type) where
  kde_blur_state : D → KdeBlurState
  new_blur : D → WlSurface → ObjectId → D := fun d _ _ => d
  commit : D → WlSurface → ObjectId → D := fun d _ _ => d
  set_region : D → WlSurface → ObjectId → Option WlRegion → D := fun d _ _ _ => d
  release : D → ObjectId → WlSurface → D := fun d _ _ => d
  unset : D → WlSurface → D := fun d _ => d

/-- A host that implements only the mandatory accessor of `KdeAppMenuHandler`. -/
def minimalAppmenuHandler (acc : D → KdeAppMenuState) : KdeAppMenuHandler D :=
  { kde_appmenu_state := acc }

/-- A host that implements only the mandatory accessor of `KdeBlurHandler`. -/
def minimalBlurHandler (acc : D → KdeBlurState) : KdeBlurHandler D :=
  { kde_blur_state := acc }

/-! ## Client sessions

Modelled from the spec: the runtime evaluates the stored visibility
predicate (via `can_view`) once per client bind attempt, before the bind
callback runs; a client the predicate denies never receives the global, its
bind fails, and none of its requests on the extension is ever delivered to
dispatch (§4.1, §7).  A session delivers a client's requests through its
bound manager when the bind succeeded, and delivers nothing otherwise. -/

def appmenuClientSession (global_data : KdeAppMenuManagerGlobalData) (client : Client)
    (t : ObjectTable) (reqs : List AppmenuSysRequest) :
    Option (ObjectTable × List AppmenuEvent) :=
  if KdeAppMenuState.can_view client global_data then appmenuRun t reqs
  else some (t, [])

def blurClientSession (global_data : KdeBlurManagerGlobalData) (client : Client)
    (t : ObjectTable) (reqs : List BlurSysRequest) :
    Option (ObjectTable × List BlurEvent) :=
  if KdeBlurState.can_view client global_data then blurRun t reqs
  else some (t, [])

def decorationClientSession (global_data : KdeDecorationManagerGlobalData) (client : Client)
    (t : ObjectTable) (reqs : List DecorationSysRequest) :
    Option (ObjectTable × List DecorationEvent) :=
  if KdeDecorationState.can_view client global_data then decorationRun t reqs
  else some (t, [])

/-! ## Defined request variants

A request variant is defined when it belongs to the interface's request set
at the negotiated version; `Undefined` models the variants the source's
wildcard `unreachable!()` arm covers. -/

def AppmenuRequest.isDefined : AppmenuRequest → Bool
  | .Undefined => false
  | _ => true

def AppmenuManagerRequest.isDefined : AppmenuManagerRequest → Bool
  | .Undefined => false
  | _ => true

def BlurRequest.isDefined : BlurRequest → Bool
  | .Undefined => false
  | _ => true

def BlurManagerRequest.isDefined : BlurManagerRequest → Bool
  | .Undefined => false
  | _ => true

def DecorationRequest.isDefined : DecorationRequest → Bool
  | .Undefined => false
  | _ => true

def DecorationManagerRequest.isDefined : DecorationManagerRequest → Bool
  | .Undefined => false
  | _ => true

/-! ## The request-to-callback correspondence stated by the spec

SetAddress maps to set_address, Commit to commit, SetRegion to set_region,
RequestMode to request_mode, Release to release, each carrying the object's
associated surface. -/

def appmenuCallbackOf (appmenu : ObjectId) (surface : WlSurface) :
    AppmenuRequest → Option AppmenuEvent
  | .SetAddress service_name object_path =>
      some (.set_address surface appmenu service_name object_path)
  | .Release => some (.release appmenu surface)
  | .Undefined => none

def blurCallbackOf (blur : ObjectId) (surface : WlSurface) :
    BlurRequest → Option BlurEvent
  | .Commit => some (.commit surface blur)
  | .SetRegion region => some (.set_region surface blur region)
  | .Release => some (.release blur surface)
  | .Undefined => none

def decorationCallbackOf (decoration : ObjectId) (surface : WlSurface) :
    DecorationRequest → Option DecorationEvent
  | .RequestMode mode => some (.request_mode surface decoration mode)
  | .Release => some (.release decoration surface)
  | .Undefined => none

/-! ## Which surface an event hands to the host, for a given object

`…EventSurfaceOf id ev` is the surface an invocation `ev` concerning
object `id` passes to the host, and `none` when `ev` does not concern
object `id` (blur's `unset` concerns no object). -/

def appmenuEventSurfaceOf (id : ObjectId) : AppmenuEvent → Option WlSurface
  | .new_appmenu s i => if i = id then some s else none
  | .set_address s i _ _ => if i = id then some s else none
  | .release i s => if i = id then some s else none

def blurEventSurfaceOf (id : ObjectId) : BlurEvent → Option WlSurface
  | .new_blur s i => if i = id then some s else none
  | .commit s i => if i = id then some s else none
  | .set_region s i _ => if i = id then some s else none
  | .release i s => if i = id then some s else none
  | .unset _ => none

def decorationEventSurfaceOf (id : ObjectId) : DecorationEvent → Option WlSurface
  | .new_decoration s i => if i = id then some s else none
  | .request_mode s i _ => if i = id then some s else none
  | .release i s => if i = id then some s else none

/-! ## Requests that do not re-create a given object id

The runtime hands `Create` a fresh, not-yet-initialized object id (`New<_>`
in the source), so a live object's id is never the target of a later
`Create`; runs below carry this as a hypothesis. -/

def appmenuAvoidsCreate (id : ObjectId) : AppmenuSysRequest → Bool
  | .manager (.Create i _) => i != id
  | _ => true

def blurAvoidsCreate (id : ObjectId) : BlurSysRequest → Bool
  | .manager (.Create i _) => i != id
  | _ => true

def decorationAvoidsCreate (id : ObjectId) : DecorationSysRequest → Bool
  | .manager (.Create i _) => i != id
  | _ => true

/-- Selects the default-mode emissions among a bind call's actions. -/
def DecorationBindAction.isEmitDefaultMode : DecorationBindAction → Bool
  | .emit_default_mode _ => true
  | .init_manager => false

/-- Spec-side definition for the refinement claim on the filterless
constructors: the constant-true visibility predicate, under which the
global is visible to all clients. -/
def allowAllClients : Client → Bool := fun _ => true

/-! ## Helper lemmas: the object-to-surface association is write-once -/

theorem appmenuDispatch_events_surface {i : ObjectId} {s1 : WlSurface}
    {r : AppmenuRequest} {evs : List AppmenuEvent}
    (hd : appmenuRequestDispatch i s1 r = some evs) :
    ∀ ev ∈ evs, ∀ id s2, appmenuEventSurfaceOf id ev = some s2 → i = id ∧ s2 = s1 := by
  intro ev hev id s2 hsurf
  cases r with
  | SetAddress sn op =>
    simp [appmenuRequestDispatch] at hd
    subst hd
    simp at hev
    subst hev
    simp [appmenuEventSurfaceOf] at hsurf
    rcases hsurf with ⟨hii, hs⟩
    exact ⟨hii, hs.symm⟩
  | Release =>
    simp [appmenuRequestDispatch] at hd
    subst hd
    simp at hev
    subst hev
    simp [appmenuEventSurfaceOf] at hsurf
    rcases hsurf with ⟨hii, hs⟩
    exact ⟨hii, hs.symm⟩
  | Undefined => simp [appmenuRequestDispatch] at hd

theorem appmenuStep_preserves {id : ObjectId} {s : WlSurface} {t : ObjectTable}
    {r : AppmenuSysRequest} {t2 : ObjectTable} {evs : List AppmenuEvent}
    (h : assocSurface t id = some s) (hr : appmenuAvoidsCreate id r = true)
    (hstep : appmenuStep t r = some (t2, evs)) :
    assocSurface t2 id = some s ∧
      ∀ ev ∈ evs, ∀ s2, appmenuEventSurfaceOf id ev = some s2 → s2 = s := by
  cases r with
  | manager mr =>
    cases mr with
    | Create i si =>
      have hne : i ≠ id := by simpa [appmenuAvoidsCreate] using hr
      simp [appmenuStep, appmenuManagerDispatch] at hstep
      obtain ⟨ht, he⟩ := hstep
      subst ht
      subst he
      refine ⟨by simp [assocSurface, hne, h], ?_⟩
      intro ev hev s2 hsurf
      simp at hev
      subst hev
      simp [appmenuEventSurfaceOf, hne] at hsurf
    | Undefined => simp [appmenuStep, appmenuManagerDispatch] at hstep
  | object i rq =>
    cases h1 : assocSurface t i with
    | none => simp [appmenuStep, h1] at hstep
    | some s1 =>
      cases hd : appmenuRequestDispatch i s1 rq with
      | none => simp [appmenuStep, h1, hd] at hstep
      | some evs1 =>
        simp [appmenuStep, h1, hd] at hstep
        obtain ⟨ht, he⟩ := hstep
        subst ht
        subst he
        refine ⟨h, ?_⟩
        intro ev hev s2 hsurf
        obtain ⟨hii, hs⟩ := appmenuDispatch_events_surface hd ev hev id s2 hsurf
        subst hii
        rw [h1] at h
        cases h
        exact hs

theorem appmenuRun_preserves {id : ObjectId} {s : WlSurface} :
    ∀ (reqs : List AppmenuSysRequest) (t t2 : ObjectTable) (tr : List AppmenuEvent),
    assocSurface t id = some s →
    (∀ r ∈ reqs, appmenuAvoidsCreate id r = true) →
    appmenuRun t reqs = some (t2, tr) →
    assocSurface t2 id = some s ∧
      ∀ ev ∈ tr, ∀ s2, appmenuEventSurfaceOf id ev = some s2 → s2 = s := by
  intro reqs
  induction reqs with
  | nil =>
    intro t t2 tr h _ hrun
    simp [appmenuRun] at hrun
    obtain ⟨ht, he⟩ := hrun
    subst ht
    subst he
    exact ⟨h, by simp⟩
  | cons r rs ih =>
    intro t t2 tr h hav hrun
    cases hstep : appmenuStep t r with
    | none => simp [appmenuRun, hstep] at hrun
    | some p1 =>
      obtain ⟨t1, e1⟩ := p1
      cases hrest : appmenuRun t1 rs with
      | none => simp [appmenuRun, hstep, hrest] at hrun
      | some p2 =>
        obtain ⟨t3, e2⟩ := p2
        have hr1 : appmenuAvoidsCreate id r = true := hav r (by simp)
        obtain ⟨h1, hev1⟩ := appmenuStep_preserves h hr1 hstep
        obtain ⟨h2, hev2⟩ := ih t1 t3 e2 h1 (fun q hq => hav q (by simp [hq])) hrest
        simp [appmenuRun, hstep, hrest] at hrun
        obtain ⟨ht, he⟩ := hrun
        subst ht
        subst he
        refine ⟨h2, ?_⟩
        intro ev hev s2 hsurf
        rcases List.mem_append.mp hev with hc | hc
        · exact hev1 ev hc s2 hsurf
        · exact hev2 ev hc s2 hsurf

theorem blurDispatch_events_surface {i : ObjectId} {s1 : WlSurface}
    {r : BlurRequest} {evs : List BlurEvent}
    (hd : blurRequestDispatch i s1 r = some evs) :
    ∀ ev ∈ evs, ∀ id s2, blurEventSurfaceOf id ev = some s2 → i = id ∧ s2 = s1 := by
  intro ev hev id s2 hsurf
  cases r with
  | Commit =>
    simp [blurRequestDispatch] at hd
    subst hd
    simp at hev
    subst hev
    simp [blurEventSurfaceOf] at hsurf
    rcases hsurf with ⟨hii, hs⟩
    exact ⟨hii, hs.symm⟩
  | SetRegion region =>
    simp [blurRequestDispatch] at hd
    subst hd
    simp at hev
    subst hev
    simp [blurEventSurfaceOf] at hsurf
    rcases hsurf with ⟨hii, hs⟩
    exact ⟨hii, hs.symm⟩
  | Release =>
    simp [blurRequestDispatch] at hd
    subst hd
    simp at hev
    subst hev
    simp [blurEventSurfaceOf] at hsurf
    rcases hsurf with ⟨hii, hs⟩
    exact ⟨hii, hs.symm⟩
  | Undefined => simp [blurRequestDispatch] at hd

theorem blurStep_preserves {id : ObjectId} {s : WlSurface} {t : ObjectTable}
    {r : BlurSysRequest} {t2 : ObjectTable} {evs : List BlurEvent}
    (h : assocSurface t id = some s) (hr : blurAvoidsCreate id r = true)
    (hstep : blurStep t r = some (t2, evs)) :
    assocSurface t2 id = some s ∧
      ∀ ev ∈ evs, ∀ s2, blurEventSurfaceOf id ev = some s2 → s2 = s := by
  cases r with
  | manager mr =>
    cases mr with
    | Create i si =>
      have hne : i ≠ id := by simpa [blurAvoidsCreate] using hr
      simp [blurStep, blurManagerDispatch] at hstep
      obtain ⟨ht, he⟩ := hstep
      subst ht
      subst he
      refine ⟨by simp [assocSurface, hne, h], ?_⟩
      intro ev hev s2 hsurf
      simp at hev
      subst hev
      simp [blurEventSurfaceOf, hne] at hsurf
    | Unset si =>
      simp [blurStep, blurManagerDispatch] at hstep
      obtain ⟨ht, he⟩ := hstep
      subst ht
      subst he
      refine ⟨h, ?_⟩
      intro ev hev s2 hsurf
      simp at hev
      subst hev
      simp [blurEventSurfaceOf] at hsurf
    | Undefined => simp [blurStep, blurManagerDispatch] at hstep
  | object i rq =>
    cases h1 : assocSurface t i with
    | none => simp [blurStep, h1] at hstep
    | some s1 =>
      cases hd : blurRequestDispatch i s1 rq with
      | none => simp [blurStep, h1, hd] at hstep
      | some evs1 =>
        simp [blurStep, h1, hd] at hstep
        obtain ⟨ht, he⟩ := hstep
        subst ht
        subst he
        refine ⟨h, ?_⟩
        intro ev hev s2 hsurf
        obtain ⟨hii, hs⟩ := blurDispatch_events_surface hd ev hev id s2 hsurf
        subst hii
        rw [h1] at h
        cases h
        exact hs

theorem blurRun_preserves {id : ObjectId} {s : WlSurface} :
    ∀ (reqs : List BlurSysRequest) (t t2 : ObjectTable) (tr : List BlurEvent),
    assocSurface t id = some s →
    (∀ r ∈ reqs, blurAvoidsCreate id r = true) →
    blurRun t reqs = some (t2, tr) →
    assocSurface t2 id = some s ∧
      ∀ ev ∈ tr, ∀ s2, blurEventSurfaceOf id ev = some s2 → s2 = s := by
  intro reqs
  induction reqs with
  | nil =>
    intro t t2 tr h _ hrun
    simp [blurRun] at hrun
    obtain ⟨ht, he⟩ := hrun
    subst ht
    subst he
    exact ⟨h, by simp⟩
  | cons r rs ih =>
    intro t t2 tr h hav hrun
    cases hstep : blurStep t r with
    | none => simp [blurRun, hstep] at hrun
    | some p1 =>
      obtain ⟨t1, e1⟩ := p1
      cases hrest : blurRun t1 rs with
      | none => simp [blurRun, hstep, hrest] at hrun
      | some p2 =>
        obtain ⟨t3, e2⟩ := p2
        have hr1 : blurAvoidsCreate id r = true := hav r (by simp)
        obtain ⟨h1, hev1⟩ := blurStep_preserves h hr1 hstep
        obtain ⟨h2, hev2⟩ := ih t1 t3 e2 h1 (fun q hq => hav q (by simp [hq])) hrest
        simp [blurRun, hstep, hrest] at hrun
        obtain ⟨ht, he⟩ := hrun
        subst ht
        subst he
        refine ⟨h2, ?_⟩
        intro ev hev s2 hsurf
        rcases List.mem_append.mp hev with hc | hc
        · exact hev1 ev hc s2 hsurf
        · exact hev2 ev hc s2 hsurf

theorem decorationDispatch_events_surface {i : ObjectId} {s1 : WlSurface}
    {r : DecorationRequest} {evs : List DecorationEvent}
    (hd : decorationRequestDispatch i s1 r = some evs) :
    ∀ ev ∈ evs, ∀ id s2, decorationEventSurfaceOf id ev = some s2 → i = id ∧ s2 = s1 := by
  intro ev hev id s2 hsurf
  cases r with
  | RequestMode mode =>
    simp [decorationRequestDispatch] at hd
    subst hd
    simp at hev
    subst hev
    simp [decorationEventSurfaceOf] at hsurf
    rcases hsurf with ⟨hii, hs⟩
    exact ⟨hii, hs.symm⟩
  | Release =>
    simp [decorationRequestDispatch] at hd
    subst hd
    simp at hev
    subst hev
    simp [decorationEventSurfaceOf] at hsurf
    rcases hsurf with ⟨hii, hs⟩
    exact ⟨hii, hs.symm⟩
  | Undefined => simp [decorationRequestDispatch] at hd

theorem decorationStep_preserves {id : ObjectId} {s : WlSurface} {t : ObjectTable}
    {r : DecorationSysRequest} {t2 : ObjectTable} {evs : List DecorationEvent}
    (h : assocSurface t id = some s) (hr : decorationAvoidsCreate id r = true)
    (hstep : decorationStep t r = some (t2, evs)) :
    assocSurface t2 id = some s ∧
      ∀ ev ∈ evs, ∀ s2, decorationEventSurfaceOf id ev = some s2 → s2 = s := by
  cases r with
  | manager mr =>
    cases mr with
    | Create i si =>
      have hne : i ≠ id := by simpa [decorationAvoidsCreate] using hr
      simp [decorationStep, decorationManagerDispatch] at hstep
      obtain ⟨ht, he⟩ := hstep
      subst ht
      subst he
      refine ⟨by simp [assocSurface, hne, h], ?_⟩
      intro ev hev s2 hsurf
      simp at hev
      subst hev
      simp [decorationEventSurfaceOf, hne] at hsurf
    | Undefined => simp [decorationStep, decorationManagerDispatch] at hstep
  | object i rq =>
    cases h1 : assocSurface t i with
    | none => simp [decorationStep, h1] at hstep
    | some s1 =>
      cases hd : decorationRequestDispatch i s1 rq with
      | none => simp [decorationStep, h1, hd] at hstep
      | some evs1 =>
        simp [decorationStep, h1, hd] at hstep
        obtain ⟨ht, he⟩ := hstep
        subst ht
        subst he
        refine ⟨h, ?_⟩
        intro ev hev s2 hsurf
        obtain ⟨hii, hs⟩ := decorationDispatch_events_surface hd ev hev id s2 hsurf
        subst hii
        rw [h1] at h
        cases h
        exact hs

theorem appmenuDispatch_callbackOf {id : ObjectId} {s : WlSurface} {r : AppmenuRequest}
    (h : r.isDefined = true) :
    appmenuRequestDispatch id s r = (appmenuCallbackOf id s r).map fun e => [e] := by
  cases r <;> simp_all [AppmenuRequest.isDefined, appmenuRequestDispatch, appmenuCallbackOf]

theorem appmenuCallbackOf_isSome (id : ObjectId) (s : WlSurface) {r : AppmenuRequest}
    (h : r.isDefined = true) : (appmenuCallbackOf id s r).isSome = true := by
  cases r <;> simp_all [AppmenuRequest.isDefined, appmenuCallbackOf]

theorem appmenuRun_object_seq {id : ObjectId} {s : WlSurface} :
    ∀ (reqs : List AppmenuRequest) (t : ObjectTable),
    assocSurface t id = some s →
    (∀ r ∈ reqs, r.isDefined = true) →
    appmenuRun t (reqs.map (AppmenuSysRequest.object id)) =
      some (t, reqs.filterMap (appmenuCallbackOf id s)) := by
  intro reqs
  induction reqs with
  | nil =>
    intro t _ _
    simp [appmenuRun]
  | cons r rs ih =>
    intro t h hdef
    have hr : r.isDefined = true := hdef r (by simp)
    cases hc : appmenuCallbackOf id s r with
    | none =>
      have hsome := appmenuCallbackOf_isSome id s hr
      simp [hc] at hsome
    | some e =>
      have hd : appmenuRequestDispatch id s r = some [e] := by
        rw [appmenuDispatch_callbackOf hr, hc]
        rfl
      have hrest := ih t h (fun q hq => hdef q (by simp [hq]))
      simp [appmenuRun, appmenuStep, h, hd, hrest, hc]

theorem blurDispatch_callbackOf {id : ObjectId} {s : WlSurface} {r : BlurRequest}
    (h : r.isDefined = true) :
    blurRequestDispatch id s r = (blurCallbackOf id s r).map fun e => [e] := by
  cases r <;> simp_all [BlurRequest.isDefined, blurRequestDispatch, blurCallbackOf]

theorem blurCallbackOf_isSome (id : ObjectId) (s : WlSurface) {r : BlurRequest}
    (h : r.isDefined = true) : (blurCallbackOf id s r).isSome = true := by
  cases r <;> simp_all [BlurRequest.isDefined, blurCallbackOf]

theorem blurRun_object_seq {id : ObjectId} {s : WlSurface} :
    ∀ (reqs : List BlurRequest) (t : ObjectTable),
    assocSurface t id = some s →
    (∀ r ∈ reqs, r.isDefined = true) →
    blurRun t (reqs.map (BlurSysRequest.object id)) =
      some (t, reqs.filterMap (blurCallbackOf id s)) := by
  intro reqs
  induction reqs with
  | nil =>
    intro t _ _
    simp [blurRun]
  | cons r rs ih =>
    intro t h hdef
    have hr : r.isDefined = true := hdef r (by simp)
    cases hc : blurCallbackOf id s r with
    | none =>
      have hsome := blurCallbackOf_isSome id s hr
      simp [hc] at hsome
    | some e =>
      have hd : blurRequestDispatch id s r = some [e] := by
        rw [blurDispatch_callbackOf hr, hc]
        rfl
      have hrest := ih t h (fun q hq => hdef q (by simp [hq]))
      simp [blurRun, blurStep, h, hd, hrest, hc]

theorem decorationDispatch_callbackOf {id : ObjectId} {s : WlSurface} {r : DecorationRequest}
    (h : r.isDefined = true) :
    decorationRequestDispatch id s r = (decorationCallbackOf id s r).map fun e => [e] := by
  cases r <;> simp_all [DecorationRequest.isDefined, decorationRequestDispatch, decorationCallbackOf]

theorem decorationCallbackOf_isSome (id : ObjectId) (s : WlSurface) {r : DecorationRequest}
    (h : r.isDefined = true) : (decorationCallbackOf id s r).isSome = true := by
  cases r <;> simp_all [DecorationRequest.isDefined, decorationCallbackOf]

theorem decorationRun_object_seq {id : ObjectId} {s : WlSurface} :
    ∀ (reqs : List DecorationRequest) (t : ObjectTable),
    assocSurface t id = some s →
    (∀ r ∈ reqs, r.isDefined = true) →
    decorationRun t (reqs.map (DecorationSysRequest.object id)) =
      some (t, reqs.filterMap (decorationCallbackOf id s)) := by
  intro reqs
  induction reqs with
  | nil =>
    intro t _ _
    simp [decorationRun]
  | cons r rs ih =>
    intro t h hdef
    have hr : r.isDefined = true := hdef r (by simp)
    cases hc : decorationCallbackOf id s r with
    | none =>
      have hsome := decorationCallbackOf_isSome id s hr
      simp [hc] at hsome
    | some e =>
      have hd : decorationRequestDispatch id s r = some [e] := by
        rw [decorationDispatch_callbackOf hr, hc]
        rfl
      have hrest := ih t h (fun q hq => hdef q (by simp [hq]))
      simp [decorationRun, decorationStep, h, hd, hrest, hc]

theorem filterMap_length_of_isSome {α β : Type} (f : α → Option β) :
    ∀ (l : List α), (∀ a ∈ l, (f a).isSome = true) →
    (l.filterMap f).length = l.length := by
  intro l
  induction l with
  | nil => intro _; simp
  | cons a l ih =>
    intro h
    have ha : (f a).isSome = true := h a (by simp)
    cases hfa : f a with
    | none => rw [hfa] at ha; simp at ha
    | some b =>
      simp only [List.filterMap_cons, hfa, List.length_cons]
      rw [ih fun x hx => h x (by simp [hx])]

theorem decorationRun_preserves {id : ObjectId} {s : WlSurface} :
    ∀ (reqs : List DecorationSysRequest) (t t2 : ObjectTable) (tr : List DecorationEvent),
    assocSurface t id = some s →
    (∀ r ∈ reqs, decorationAvoidsCreate id r = true) →
    decorationRun t reqs = some (t2, tr) →
    assocSurface t2 id = some s ∧
      ∀ ev ∈ tr, ∀ s2, decorationEventSurfaceOf id ev = some s2 → s2 = s := by
  intro reqs
  induction reqs with
  | nil =>
    intro t t2 tr h _ hrun
    simp [decorationRun] at hrun
    obtain ⟨ht, he⟩ := hrun
    subst ht
    subst he
    exact ⟨h, by simp⟩
  | cons r rs ih =>
    intro t t2 tr h hav hrun
    cases hstep : decorationStep t r with
    | none => simp [decorationRun, hstep] at hrun
    | some p1 =>
      obtain ⟨t1, e1⟩ := p1
      cases hrest : decorationRun t1 rs with
      | none => simp [decorationRun, hstep, hrest] at hrun
      | some p2 =>
        obtain ⟨t3, e2⟩ := p2
        have hr1 : decorationAvoidsCreate id r = true := hav r (by simp)
        obtain ⟨h1, hev1⟩ := decorationStep_preserves h hr1 hstep
        obtain ⟨h2, hev2⟩ := ih t1 t3 e2 h1 (fun q hq => hav q (by simp [hq])) hrest
        simp [decorationRun, hstep, hrest] at hrun
        obtain ⟨ht, he⟩ := hrun
        subst ht
        subst he
        refine ⟨h2, ?_⟩
        intro ev hev s2 hsurf
        rcases List.mem_append.mp hev with hc | hc
        · exact hev1 ev hc s2 hsurf
        · exact hev2 ev hc s2 hsurf

/-! ## The claims -/

/-- Claim C1: for every well-formed manager `Create` request (appmenu, blur,
or decoration), the per-surface object produced by dispatch is initialized
with exactly the `WlSurface` supplied in the request as its associated data,
and that association is never modified afterwards — every later per-surface
request handler receives that same surface.  Stated per extension as: (a)
dispatching `Create id surface` associates `surface` with `id`; (b) a
per-object request against `id` is handled with the associated surface; (c)
over any run whose requests never re-create `id`, the association persists
and every handler invocation concerning `id` carries that surface. -/
theorem create_associates_surface_permanently :
    (∀ (t t2 : ObjectTable) (id : ObjectId) (s : WlSurface) (evs : List AppmenuEvent),
      appmenuStep t (.manager (.Create id s)) = some (t2, evs) →
      assocSurface t2 id = some s) ∧
    (∀ (t : ObjectTable) (id : ObjectId) (s : WlSurface) (r : AppmenuRequest),
      assocSurface t id = some s →
      appmenuStep t (.object id r) =
        (appmenuRequestDispatch id s r).map fun evs => (t, evs)) ∧
    (∀ (reqs : List AppmenuSysRequest) (t t2 : ObjectTable) (tr : List AppmenuEvent)
      (id : ObjectId) (s : WlSurface),
      assocSurface t id = some s →
      (∀ r ∈ reqs, appmenuAvoidsCreate id r = true) →
      appmenuRun t reqs = some (t2, tr) →
      assocSurface t2 id = some s ∧
        ∀ ev ∈ tr, ∀ s2, appmenuEventSurfaceOf id ev = some s2 → s2 = s) ∧
    (∀ (t t2 : ObjectTable) (id : ObjectId) (s : WlSurface) (evs : List BlurEvent),
      blurStep t (.manager (.Create id s)) = some (t2, evs) →
      assocSurface t2 id = some s) ∧
    (∀ (t : ObjectTable) (id : ObjectId) (s : WlSurface) (r : BlurRequest),
      assocSurface t id = some s →
      blurStep t (.object id r) =
        (blurRequestDispatch id s r).map fun evs => (t, evs)) ∧
    (∀ (reqs : List BlurSysRequest) (t t2 : ObjectTable) (tr : List BlurEvent)
      (id : ObjectId) (s : WlSurface),
      assocSurface t id = some s →
      (∀ r ∈ reqs, blurAvoidsCreate id r = true) →
      blurRun t reqs = some (t2, tr) →
      assocSurface t2 id = some s ∧
        ∀ ev ∈ tr, ∀ s2, blurEventSurfaceOf id ev = some s2 → s2 = s) ∧
    (∀ (t t2 : ObjectTable) (id : ObjectId) (s : WlSurface) (evs : List DecorationEvent),
      decorationStep t (.manager (.Create id s)) = some (t2, evs) →
      assocSurface t2 id = some s) ∧
    (∀ (t : ObjectTable) (id : ObjectId) (s : WlSurface) (r : DecorationRequest),
      assocSurface t id = some s →
      decorationStep t (.object id r) =
        (decorationRequestDispatch id s r).map fun evs => (t, evs)) ∧
    (∀ (reqs : List DecorationSysRequest) (t t2 : ObjectTable) (tr : List DecorationEvent)
      (id : ObjectId) (s : WlSurface),
      assocSurface t id = some s →
      (∀ r ∈ reqs, decorationAvoidsCreate id r = true) →
      decorationRun t reqs = some (t2, tr) →
      assocSurface t2 id = some s ∧
        ∀ ev ∈ tr, ∀ s2, decorationEventSurfaceOf id ev = some s2 → s2 = s) := by
  refine ⟨?_, ?_, ?_, ?_, ?_, ?_, ?_, ?_, ?_⟩
  · intro t t2 id s evs h
    simp [appmenuStep, appmenuManagerDispatch] at h
    obtain ⟨ht, _⟩ := h
    subst ht
    simp [assocSurface]
  · intro t id s r h
    cases hd : appmenuRequestDispatch id s r with
    | none => simp [appmenuStep, h, hd]
    | some evs => simp [appmenuStep, h, hd]
  · intro reqs t t2 tr id s h hav hrun
    exact appmenuRun_preserves reqs t t2 tr h hav hrun
  · intro t t2 id s evs h
    simp [blurStep, blurManagerDispatch] at h
    obtain ⟨ht, _⟩ := h
    subst ht
    simp [assocSurface]
  · intro t id s r h
    cases hd : blurRequestDispatch id s r with
    | none => simp [blurStep, h, hd]
    | some evs => simp [blurStep, h, hd]
  · intro reqs t t2 tr id s h hav hrun
    exact blurRun_preserves reqs t t2 tr h hav hrun
  · intro t t2 id s evs h
    simp [decorationStep, decorationManagerDispatch] at h
    obtain ⟨ht, _⟩ := h
    subst ht
    simp [assocSurface]
  · intro t id s r h
    cases hd : decorationRequestDispatch id s r with
    | none => simp [decorationStep, h, hd]
    | some evs => simp [decorationStep, h, hd]
  · intro reqs t t2 tr id s h hav hrun
    exact decorationRun_preserves reqs t t2 tr h hav hrun

theorem create_associates_surface_permanently_witness :
    assocSurface [(4, 9)] 4 = some 9 ∧
    blurStep [(4, 9)] (.object 4 .Commit) = some ([(4, 9)], [.commit 9 4]) ∧
    (assocSurface [(4, 9), (2, 5)] 2 = some 5 ∧
      ∀ ev ∈ [DecorationEvent.new_decoration 9 4, DecorationEvent.request_mode 5 2 .serverSide],
        ∀ s2, decorationEventSurfaceOf 2 ev = some s2 → s2 = 5) := by
  refine ⟨?_, ?_, ?_⟩
  · exact create_associates_surface_permanently.1 [] [(4, 9)] 4 9
      [.new_appmenu 9 4] (by decide)
  · have h := create_associates_surface_permanently.2.2.2.2.1 [(4, 9)] 4 9 .Commit
      (by decide)
    simpa using h
  · exact create_associates_surface_permanently.2.2.2.2.2.2.2.2
      [.manager (.Create 4 9), .object 2 (.RequestMode .serverSide)]
      [(2, 5)] [(4, 9), (2, 5)] [.new_decoration 9 4, .request_mode 5 2 .serverSide]
      2 5 (by decide) (by decide) (by decide)

/-- Claim C2: for every sequence of requests dispatched against one
per-surface object (appmenu, blur, or decoration), each dispatch call
invokes exactly one host callback (SetAddress maps to set_address, Commit
to commit, SetRegion to set_region, RequestMode to request_mode, Release to
release), and the callbacks occur in the same order as the requests were
dispatched: the run's callback trace is the request list mapped through the
request-to-callback correspondence, one callback per request. -/
theorem callbacks_in_request_order :
    (∀ (t : ObjectTable) (id : ObjectId) (s : WlSurface) (reqs : List AppmenuRequest),
      assocSurface t id = some s →
      (∀ r ∈ reqs, r.isDefined = true) →
      appmenuRun t (reqs.map (AppmenuSysRequest.object id)) =
        some (t, reqs.filterMap (appmenuCallbackOf id s)) ∧
      (reqs.filterMap (appmenuCallbackOf id s)).length = reqs.length) ∧
    (∀ (t : ObjectTable) (id : ObjectId) (s : WlSurface) (reqs : List BlurRequest),
      assocSurface t id = some s →
      (∀ r ∈ reqs, r.isDefined = true) →
      blurRun t (reqs.map (BlurSysRequest.object id)) =
        some (t, reqs.filterMap (blurCallbackOf id s)) ∧
      (reqs.filterMap (blurCallbackOf id s)).length = reqs.length) ∧
    (∀ (t : ObjectTable) (id : ObjectId) (s : WlSurface) (reqs : List DecorationRequest),
      assocSurface t id = some s →
      (∀ r ∈ reqs, r.isDefined = true) →
      decorationRun t (reqs.map (DecorationSysRequest.object id)) =
        some (t, reqs.filterMap (decorationCallbackOf id s)) ∧
      (reqs.filterMap (decorationCallbackOf id s)).length = reqs.length) := by
  refine ⟨?_, ?_, ?_⟩
  · intro t id s reqs h hdef
    refine ⟨appmenuRun_object_seq reqs t h hdef, ?_⟩
    exact filterMap_length_of_isSome _ reqs fun r hr => appmenuCallbackOf_isSome id s (hdef r hr)
  · intro t id s reqs h hdef
    refine ⟨blurRun_object_seq reqs t h hdef, ?_⟩
    exact filterMap_length_of_isSome _ reqs fun r hr => blurCallbackOf_isSome id s (hdef r hr)
  · intro t id s reqs h hdef
    refine ⟨decorationRun_object_seq reqs t h hdef, ?_⟩
    exact filterMap_length_of_isSome _ reqs fun r hr => decorationCallbackOf_isSome id s (hdef r hr)

theorem callbacks_in_request_order_witness :
    (appmenuRun [(1, 2)]
        [.object 1 (.SetAddress "org.example.App" "/MenuBar"), .object 1 .Release] =
      some ([(1, 2)],
        [.set_address 2 1 "org.example.App" "/MenuBar", .release 1 2]) ∧
      ([AppmenuRequest.SetAddress "org.example.App" "/MenuBar",
        AppmenuRequest.Release].filterMap (appmenuCallbackOf 1 2)).length = 2) ∧
    (blurRun [(3, 4)] [.object 3 .Commit, .object 3 (.SetRegion (some 8)),
        .object 3 (.SetRegion none), .object 3 .Release] =
      some ([(3, 4)],
        [.commit 4 3, .set_region 4 3 (some 8), .set_region 4 3 none, .release 3 4]) ∧
      ([BlurRequest.Commit, BlurRequest.SetRegion (some 8), BlurRequest.SetRegion none,
        BlurRequest.Release].filterMap (blurCallbackOf 3 4)).length = 4) := by
  constructor
  · have h := callbacks_in_request_order.1 [(1, 2)] 1 2
      [.SetAddress "org.example.App" "/MenuBar", .Release] (by decide) (by decide)
    simpa using h
  · have h := callbacks_in_request_order.2.1 [(3, 4)] 3 4
      [.Commit, .SetRegion (some 8), .SetRegion none, .Release] (by decide) (by decide)
    simpa using h

/-- Claim C3: for every client and every manager global (appmenu, blur,
decoration), `can_view` returns exactly the result of applying the filter
predicate stored in the global's metadata to that client; consequently a
client for which the filter returns false never binds the manager and none
of its requests on the extension is ever dispatched (its session delivers
nothing and leaves the object table untouched). -/
theorem can_view_applies_stored_filter :
    (∀ (client : Client) (gd : KdeAppMenuManagerGlobalData),
      KdeAppMenuState.can_view client gd = gd.filter client) ∧
    (∀ (client : Client) (gd : KdeBlurManagerGlobalData),
      KdeBlurState.can_view client gd = gd.filter client) ∧
    (∀ (client : Client) (gd : KdeDecorationManagerGlobalData),
      KdeDecorationState.can_view client gd = gd.filter client) ∧
    (∀ (gd : KdeAppMenuManagerGlobalData) (client : Client) (t : ObjectTable)
      (reqs : List AppmenuSysRequest), gd.filter client = false →
      appmenuClientSession gd client t reqs = some (t, [])) ∧
    (∀ (gd : KdeBlurManagerGlobalData) (client : Client) (t : ObjectTable)
      (reqs : List BlurSysRequest), gd.filter client = false →
      blurClientSession gd client t reqs = some (t, [])) ∧
    (∀ (gd : KdeDecorationManagerGlobalData) (client : Client) (t : ObjectTable)
      (reqs : List DecorationSysRequest), gd.filter client = false →
      decorationClientSession gd client t reqs = some (t, [])) := by
  refine ⟨fun _ _ => rfl, fun _ _ => rfl, fun _ _ => rfl, ?_, ?_, ?_⟩
  · intro gd client t reqs h
    simp [appmenuClientSession, KdeAppMenuState.can_view, h]
  · intro gd client t reqs h
    simp [blurClientSession, KdeBlurState.can_view, h]
  · intro gd client t reqs h
    simp [decorationClientSession, KdeDecorationState.can_view, h]

theorem can_view_applies_stored_filter_witness :
    KdeAppMenuState.can_view 3 { filter := fun c => c == 3 } =
        (fun c => c == 3) 3 ∧
    appmenuClientSession { filter := fun _ => false } 0 []
        [.manager (.Create 1 2)] = some ([], []) ∧
    blurClientSession { filter := fun _ => false } 0 [] [.manager (.Unset 5)] =
        some ([], []) ∧
    decorationClientSession { filter := fun _ => false } 0 []
        [.manager (.Create 1 2)] = some ([], []) := by
  refine ⟨?_, ?_, ?_, ?_⟩
  · exact can_view_applies_stored_filter.1 3 { filter := fun c => c == 3 }
  · exact can_view_applies_stored_filter.2.2.2.1 { filter := fun _ => false } 0 []
      [.manager (.Create 1 2)] rfl
  · exact can_view_applies_stored_filter.2.2.2.2.1 { filter := fun _ => false } 0 []
      [.manager (.Unset 5)] rfl
  · exact can_view_applies_stored_filter.2.2.2.2.2 { filter := fun _ => false } 0 []
      [.manager (.Create 1 2)] rfl

/-- Claim C4: for every client bind of the decoration manager global, the
bind handler emits exactly one `default_mode` event, carrying the default
mode read from the host's decoration state, and the emission happens inside
the bind call, after the manager object is initialized: among the bind
call's actions, the default-mode emissions are exactly one event with the
host's default mode, and initialization is the first action. -/
theorem decoration_bind_emits_default_mode :
    ∀ (st : KdeDecorationState),
      (decorationManagerBind st).filter DecorationBindAction.isEmitDefaultMode =
        [.emit_default_mode st.default_mode] ∧
      (decorationManagerBind st).head? = some .init_manager ∧
      (decorationManagerBind st).getLast? = some (.emit_default_mode st.default_mode) := by
  intro st
  refine ⟨?_, rfl, rfl⟩
  simp [decorationManagerBind, DecorationBindAction.isEmitDefaultMode]

/-- Claim C5: for every blur-manager `Unset(surface)` request, dispatch
invokes the host's `unset` callback exactly once with only that surface,
without creating or touching any per-surface blur object (the object table
is returned unchanged) and without invoking any per-object callback; for
every table, including ones with no blur object for the surface. -/
theorem blur_unset_invokes_unset_only :
    ∀ (t : ObjectTable) (s : WlSurface),
      blurStep t (.manager (.Unset s)) = some (t, [.unset s]) := by
  intro t s
  rfl

/-- Claim C6: for every request variant inside the interface's defined
request set, dispatch is total — some host callback is defined and invoked
(exactly one); for any request variant outside that set, dispatch reaches
the unreachable/panic branch (modelled as `none`) rather than returning a
recoverable error.  Under the precondition that the runtime only delivers
defined variants, the unreachable branch is never executed (dispatch is
`some` on every defined variant).  Stated for the appmenu and decoration
per-object dispatchers, the blur per-object dispatcher, and the three
manager dispatchers. -/
theorem dispatch_total_on_defined_variants :
    (∀ (id : ObjectId) (s : WlSurface) (r : AppmenuRequest),
      (r.isDefined = true → ∃ e, appmenuRequestDispatch id s r = some [e]) ∧
      (r.isDefined = false → appmenuRequestDispatch id s r = none)) ∧
    (∀ (id : ObjectId) (s : WlSurface) (r : BlurRequest),
      (r.isDefined = true → ∃ e, blurRequestDispatch id s r = some [e]) ∧
      (r.isDefined = false → blurRequestDispatch id s r = none)) ∧
    (∀ (id : ObjectId) (s : WlSurface) (r : DecorationRequest),
      (r.isDefined = true → ∃ e, decorationRequestDispatch id s r = some [e]) ∧
      (r.isDefined = false → decorationRequestDispatch id s r = none)) ∧
    (∀ (t : ObjectTable) (r : AppmenuManagerRequest),
      (r.isDefined = true → ∃ t2 e, appmenuManagerDispatch t r = some (t2, [e])) ∧
      (r.isDefined = false → appmenuManagerDispatch t r = none)) ∧
    (∀ (t : ObjectTable) (r : BlurManagerRequest),
      (r.isDefined = true → ∃ t2 e, blurManagerDispatch t r = some (t2, [e])) ∧
      (r.isDefined = false → blurManagerDispatch t r = none)) ∧
    (∀ (t : ObjectTable) (r : DecorationManagerRequest),
      (r.isDefined = true → ∃ t2 e, decorationManagerDispatch t r = some (t2, [e])) ∧
      (r.isDefined = false → decorationManagerDispatch t r = none)) := by
  refine ⟨?_, ?_, ?_, ?_, ?_, ?_⟩
  · intro id s r
    cases r <;>
      simp [AppmenuRequest.isDefined, appmenuRequestDispatch]
  · intro id s r
    cases r <;>
      simp [BlurRequest.isDefined, blurRequestDispatch]
  · intro id s r
    cases r <;>
      simp [DecorationRequest.isDefined, decorationRequestDispatch]
  · intro t r
    cases r <;>
      simp [AppmenuManagerRequest.isDefined, appmenuManagerDispatch]
  · intro t r
    cases r <;>
      simp [BlurManagerRequest.isDefined, blurManagerDispatch]
  · intro t r
    cases r <;>
      simp [DecorationManagerRequest.isDefined, decorationManagerDispatch]

theorem dispatch_total_on_defined_variants_witness :
    (∃ e, appmenuRequestDispatch 5 6 .Release = some [e]) ∧
    appmenuRequestDispatch 5 6 .Undefined = none ∧
    (∃ e, blurRequestDispatch 1 2 .Commit = some [e]) ∧
    blurRequestDispatch 1 2 .Undefined = none ∧
    (∃ t2 e, blurManagerDispatch [] (.Unset 3) = some (t2, [e])) ∧
    blurManagerDispatch [] .Undefined = none := by
  refine ⟨?_, ?_, ?_, ?_, ?_, ?_⟩
  · exact (dispatch_total_on_defined_variants.1 5 6 .Release).1 rfl
  · exact (dispatch_total_on_defined_variants.1 5 6 .Undefined).2 rfl
  · exact (dispatch_total_on_defined_variants.2.1 1 2 .Commit).1 rfl
  · exact (dispatch_total_on_defined_variants.2.1 1 2 .Undefined).2 rfl
  · exact (dispatch_total_on_defined_variants.2.2.2.2.1 [] (.Unset 3)).1 rfl
  · exact (dispatch_total_on_defined_variants.2.2.2.2.1 [] .Undefined).2 rfl

/-- Claim C7: for every blur `SetRegion` request, the host's `set_region`
callback receives the request's region value passed through as an option —
a present region as `some`, an absent region as `none` — and an absent
region is never treated as an error and never skips the callback: dispatch
always succeeds with exactly the one `set_region` invocation carrying the
request's region. -/
theorem set_region_forwards_optional_region :
    ∀ (id : ObjectId) (s : WlSurface) (region : Option WlRegion),
      blurRequestDispatch id s (.SetRegion region) = some [.set_region s id region] := by
  intro id s region
  rfl

/-- Claim C8: for every host type that implements only the mandatory state
accessor of a handler trait, the optional event methods (new_appmenu,
set_address, release, new_blur, commit, set_region, unset) have default
implementations that perform no operation and leave the host state
unchanged. -/
theorem default_handler_methods_are_noops :
    ∀ (D : Type) (acc : D → KdeAppMenuState) (acc2 : D → KdeBlurState) (d : D)
      (s : WlSurface) (o : ObjectId) (service_name object_path : String)
      (region : Option WlRegion),
      (minimalAppmenuHandler acc).new_appmenu d s o = d ∧
      (minimalAppmenuHandler acc).set_address d s o service_name object_path = d ∧
      (minimalAppmenuHandler acc).release d o s = d ∧
      (minimalBlurHandler acc2).new_blur d s o = d ∧
      (minimalBlurHandler acc2).commit d s o = d ∧
      (minimalBlurHandler acc2).set_region d s o region = d ∧
      (minimalBlurHandler acc2).release d o s = d ∧
      (minimalBlurHandler acc2).unset d s = d := by
  intro D acc acc2 d s o service_name object_path region
  exact ⟨rfl, rfl, rfl, rfl, rfl, rfl, rfl, rfl⟩

/-- Claim C9: state construction registers each manager global at a fixed
protocol version — the appmenu manager global at version 2 and the blur
manager global at version 1 — for every invocation of the respective
constructor, on any display and with any filter. -/
theorem manager_globals_fixed_versions :
    ∀ (d : DisplayHandle KdeAppMenuManagerGlobalData)
      (d2 : DisplayHandle KdeBlurManagerGlobalData)
      (f g : Client → Bool),
      (KdeAppMenuState.new_with_filter d f).2.globalVersion
        (KdeAppMenuState.new_with_filter d f).1.global = some 2 ∧
      (KdeBlurState.new_with_filter d2 g).2.globalVersion
        (KdeBlurState.new_with_filter d2 g).1.global = some 1 := by
  intro d d2 f g
  constructor
  · simp [KdeAppMenuState.new_with_filter, DisplayHandle.create_global,
      DisplayHandle.globalVersion, KdeAppMenuState.global, List.find?]
  · simp [KdeBlurState.new_with_filter, DisplayHandle.create_global,
      DisplayHandle.globalVersion, KdeBlurState.global, List.find?]

/-- Claim C10: the filterless constructor `new` is equivalent to
`new_with_filter` called with the constant-true predicate, and a state
created via `new` has a visibility filter for which `can_view` returns true
for every client: by default the global is visible to all clients. -/
theorem new_is_new_with_filter_allow_all :
    (∀ (d : DisplayHandle KdeAppMenuManagerGlobalData),
      KdeAppMenuState.new d = KdeAppMenuState.new_with_filter d allowAllClients) ∧
    (∀ (d : DisplayHandle KdeAppMenuManagerGlobalData) (client : Client),
      ((KdeAppMenuState.new d).2.globalData (KdeAppMenuState.new d).1.global).map
        (KdeAppMenuState.can_view client) = some true) ∧
    (∀ (d : DisplayHandle KdeBlurManagerGlobalData),
      KdeBlurState.new d = KdeBlurState.new_with_filter d allowAllClients) ∧
    (∀ (d : DisplayHandle KdeBlurManagerGlobalData) (client : Client),
      ((KdeBlurState.new d).2.globalData (KdeBlurState.new d).1.global).map
        (KdeBlurState.can_view client) = some true) := by
  refine ⟨fun d => rfl, ?_, fun d => rfl, ?_⟩
  · intro d client
    simp [KdeAppMenuState.new, KdeAppMenuState.new_with_filter,
      DisplayHandle.create_global, DisplayHandle.globalData,
      KdeAppMenuState.global, KdeAppMenuState.can_view, List.find?]
  · intro d client
    simp [KdeBlurState.new, KdeBlurState.new_with_filter,
      DisplayHandle.create_global, DisplayHandle.globalData,
      KdeBlurState.global, KdeBlurState.can_view, List.find?]
